import Mathlib

/-!
Verification of the silence-detection lambda (`lambda_function.py`).

The core under scrutiny is the pure diagnostic-text interpretation inside
`has_audio` (the part after `detect_silence` returns the ffmpeg stderr
text): three compiled patterns classify each line, two growable lists
`chunk_starts` / `chunk_ends` are built in line order, and a final
fix-up step pairs them positionally.

Numbers: every numeral the patterns can extract is a finite decimal
(digits with at most one dot), and the program only parses such numerals,
forms `hours*3600 + minutes*60 + seconds`, and tests truthiness of
`end_time` — it never performs any further float arithmetic.  Times are
therefore carried exactly as `Dec` values: mantissa `m` and exponent `e`
denoting `m / 10^e` (`Dec.toRat`).  A Python float is falsy exactly when
its value is `0.0`, i.e. when the mantissa is `0`, so the one truthiness
test is representation-independent.  Python's `float(...)` conversion,
which raises `ValueError` on a matched-but-malformed seconds field, is
modelled by an `Option`-valued conversion, and the whole parse by an
`Except Unit` computation (the `error` case is a raised exception).
-/

/-- Exact decimal: `mant / 10 ^ exp`.  All numerals the patterns extract
are non-negative, so a natural mantissa suffices. -/
structure Dec where
  mant : ℕ
  exp : ℕ
deriving DecidableEq

/-- The rational value denoted by a `Dec`. -/
def Dec.toRat (d : Dec) : ℚ := (d.mant : ℚ) / 10 ^ d.exp

/-- `[0-9]` character class. -/
def isDig (c : Char) : Bool := '0' ≤ c && c ≤ '9'

/-- `[0-9.]` character class (the `seconds` field of the duration pattern). -/
def sdChar (c : Char) : Bool := isDig c || c = '.'

/-- Numeric value of a digit string read left to right, as `int(...)`
computes it (the patterns guarantee the string is non-empty and all
digits wherever `int` is applied). -/
def digitsNat (s : List Char) : ℕ :=
  s.foldl (fun a c => 10 * a + (c.toNat - 48)) 0

/-- Full match of the group `[0-9]+(\.?[0-9]*)` : one or more digits, then
optionally a dot followed by zero or more digits, and nothing else. -/
def numMatch (s : List Char) : Bool :=
  let d1 := s.takeWhile isDig
  let r := s.dropWhile isDig
  d1 ≠ [] && (r = [] || (r.head? = some '.' && r.tail.all isDig))

/-- Python `float(...)` on a string over the alphabet the patterns can
deliver.  It succeeds exactly when the string consists of digits and at
most one dot, with at least one digit; on anything else `float` raises
`ValueError`, modelled as `none`. -/
def pyFloat (s : List Char) : Option Dec :=
  if s.any isDig = false then none
  else if 2 ≤ (s.filter (fun c => c = '.')).length then none
  else if s.any (fun c => !(sdChar c)) then none
  else
    let ip := s.takeWhile isDig
    match s.dropWhile isDig with
    | [] => some ⟨digitsNat ip, 0⟩
    | _ :: fp => some ⟨digitsNat ip * 10 ^ fp.length + digitsNat fp, fp.length⟩

/-- Line 91 of the source: `end_time = hours * 3600 + minutes * 60 + seconds`. -/
def durTotal (hh mm : List Char) (sd : Dec) : Dec :=
  ⟨(digitsNat hh * 3600 + digitsNat mm * 60) * 10 ^ sd.exp + sd.mant, sd.exp⟩

/-- Strip a literal token from the front of a string, returning the rest. -/
def stripTok : List Char → List Char → Option (List Char)
  | [], s => some s
  | _ :: _, [] => none
  | t :: ts, c :: cs => if c = t then stripTok ts cs else none

/-- The literal of `SILENCE_START_RE` before the capture group. -/
def tokSS : List Char := (" silence_start: ").toList

/-- The literal of `SILENCE_END_RE` before the capture group. -/
def tokSE : List Char := (" silence_end: ").toList

/-- `re.search` of `SILENCE_START_RE = " silence_start: (?P<start>[0-9]+(\.?[0-9]*))$"`:
at some position the literal token must be followed by a numeral running
to the end of the line (the `$` anchor). -/
def scanSS : List Char → Option (List Char)
  | [] => none
  | c :: cs =>
    match stripTok tokSS (c :: cs) with
    | some tail => if numMatch tail then some tail else scanSS cs
    | none => scanSS cs

/-- The number-then-space part of `SILENCE_END_RE` at a fixed position:
`[0-9]+(\.?[0-9]*)` followed by a literal space, with the engine's
backtracking collapsed (the digit runs are maximal). -/
def seNum (t : List Char) : Option (List Char) :=
  let d1 := t.takeWhile isDig
  let r := t.dropWhile isDig
  if d1 = [] then none
  else if r.head? = some ' ' then some d1
  else if r.head? = some '.' then
    (if (r.tail.dropWhile isDig).head? = some ' ' then
      some (d1 ++ '.' :: r.tail.takeWhile isDig)
    else none)
  else none

/-- `re.search` of `SILENCE_END_RE = " silence_end: (?P<end>[0-9]+(\.?[0-9]*)) "`. -/
def scanSE : List Char → Option (List Char)
  | [] => none
  | c :: cs =>
    match stripTok tokSE (c :: cs) with
    | some tail =>
      (match seNum tail with
       | some n => some n
       | none => scanSE cs)
    | none => scanSE cs

/-- Attempt of `TOTAL_DURATION_RE` anchored at the current position:
`size=[^ ]+ time=(hh):(mm):([0-9.]{5}) bitrate=`.  Returns the three
captured fields. -/
def durAt (s : List Char) : Option (List Char × List Char × List Char) :=
  match stripTok ("size=").toList s with
  | none => none
  | some t1 =>
    let tok2 := t1.takeWhile (fun c => c ≠ ' ')
    if tok2 = [] then none
    else
      match stripTok (" time=").toList (t1.dropWhile (fun c => c ≠ ' ')) with
      | none => none
      | some t2 =>
        match t2 with
        | h1 :: h2 :: c1 :: m1 :: m2 :: c2 :: s1 :: s2 :: s3 :: s4 :: s5 :: r =>
          if isDig h1 && isDig h2 && c1 = ':' && isDig m1 && isDig m2 && c2 = ':'
              && ([s1, s2, s3, s4, s5].all sdChar)
              && (stripTok (" bitrate=").toList r).isSome
          then some ([h1, h2], [m1, m2], [s1, s2, s3, s4, s5])
          else none
        | _ => none

/-- `re.search` of `TOTAL_DURATION_RE`. -/
def scanDur : List Char → Option (List Char × List Char × List Char)
  | [] => none
  | c :: cs =>
    match durAt (c :: cs) with
    | some r => some r
    | none => scanDur cs

/-- Classification of one diagnostic line, in the priority order of the
`if / elif / elif` chain of `has_audio` (silence start first, then
silence end, then total duration). -/
inductive Ev where
  | startEv (num : List Char)
  | endEv (num : List Char)
  | durEv (hh mm ss : List Char)
  | skip
deriving DecidableEq

def classify (line : List Char) : Ev :=
  match scanSS line with
  | some n => .startEv n
  | none =>
    match scanSE line with
    | some n => .endEv n
    | none =>
      match scanDur line with
      | some (h, m, s) => .durEv h m s
      | none => .skip

/-- Python `str.splitlines()` restricted to the terminators `\n`, `\r`,
`\r\n` (the only ones ffmpeg emits): a trailing terminator produces no
extra empty line. -/
def splitLines : List Char → List (List Char)
  | [] => []
  | '\n' :: cs => [] :: splitLines cs
  | '\r' :: '\n' :: cs => [] :: splitLines cs
  | '\r' :: cs => [] :: splitLines cs
  | c :: cs =>
    match splitLines cs with
    | [] => [[c]]
    | l :: ls => (c :: l) :: ls

/-- The mutable locals of the `has_audio` scan loop: `chunk_starts`,
`chunk_ends` and `end_time` (`start_time` is `0.0` throughout and is
inlined as `⟨0, 0⟩`). -/
structure PState where
  chunk_starts : List Dec
  chunk_ends : List Dec
  end_time : Option Dec
deriving DecidableEq

def initState : PState := ⟨[], [], none⟩

/-- One iteration of the `for line in output.splitlines()` loop.  The
`float(...)` conversions of the captured groups are the only fallible
steps (`.error ()` is a raised `ValueError`). -/
def processLine (st : PState) (line : List Char) : Except Unit PState :=
  match classify line with
  | .startEv n =>
    match pyFloat n with
    | none => .error ()
    | some q =>
      let st1 : PState := { st with chunk_ends := st.chunk_ends ++ [q] }
      if st1.chunk_starts.length = 0 then
        .ok { st1 with chunk_starts := st1.chunk_starts ++ [⟨0, 0⟩] }
      else .ok st1
  | .endEv n =>
    match pyFloat n with
    | none => .error ()
    | some q => .ok { st with chunk_starts := st.chunk_starts ++ [q] }
  | .durEv hh mm ss =>
    match pyFloat ss with
    | none => .error ()
    | some q => .ok { st with end_time := some (durTotal hh mm q) }
  | .skip => .ok st

/-- The whole scan loop. -/
def runLines : PState → List (List Char) → Except Unit PState
  | st, [] => .ok st
  | st, l :: ls =>
    match processLine st l with
    | .ok st2 => runLines st2 ls
    | .error e => .error e

/-- Python `end_time or 10000000.0`: `None` and the falsy `0.0` both fall
back to the sentinel (a float is falsy exactly when its value is zero,
i.e. when the mantissa is zero). -/
def orSentinel : Option Dec → Dec
  | some v => if v.mant = 0 then ⟨10000000, 0⟩ else v
  | none => ⟨10000000, 0⟩

/-- The fix-up after the loop (lines 93-104 of the source): empty-starts
fallback, conditional synthesis of one closing time, the `noise_detected`
flag, and the positional `zip`. -/
def finishState (st : PState) : List (Dec × Dec) × Bool :=
  let starts := if st.chunk_starts.length = 0 then st.chunk_starts ++ [⟨0, 0⟩] else st.chunk_starts
  if starts.length > st.chunk_ends.length ∧ st.chunk_ends.length > 0 then
    (starts.zip (st.chunk_ends ++ [orSentinel st.end_time]), true)
  else
    (starts.zip st.chunk_ends, false)

/-- The pure diagnostic-text part of `has_audio`: everything after
`detect_silence` hands over the ffmpeg stderr text. -/
def has_audio_parse (text : String) : Except Unit (List (Dec × Dec) × Bool) :=
  (runLines initState (splitLines text.toList)).map finishState

deriving instance DecidableEq for Except

/-! ### The orchestrator (outside the parsing core)

`s3_object` in the source is a `@contextmanager` generator with no
`try/finally`: it downloads to `/tmp`, `yield`s the file name, and calls
`os.remove` after the `yield`.  The model below embeds the generator
together with the `with` statement that consumes it, over an explicit
file-system state.  Per the context-manager protocol, an exception
raised by the `with` body is thrown into the generator at the `yield`
point; since nothing catches it there, it propagates and the code after
the `yield` (the `os.remove` call) never runs. -/

/-- The one piece of file-system state the handler touches: whether the
temporary local copy of the input file exists. -/
structure TempFs where
  tmpExists : Bool
deriving DecidableEq

/-- `with s3_object(bucket, key) as input_file: body` — download, run the
body, and remove the temporary file only on normal completion of the
body (the generator has no `try/finally` around its `yield`). -/
def s3_object {α : Type} (body : TempFs → TempFs × Except String α) (fs : TempFs) :
    TempFs × Except String α :=
  let fs1 : TempFs := { fs with tmpExists := true }
  match body fs1 with
  | (fs2, .ok a) => ({ fs2 with tmpExists := false }, .ok a)
  | (fs2, .error e) => (fs2, .error e)

/-- The response dictionary of `lambda_handler`.  It is initialised as
`{"success": False, "noise_detected": False, "errors": None}`; the
`except` branch adds a distinct key `"error"` (singular), modelled as a
fourth field that starts out absent (`none`). -/
structure RespData where
  success : Bool
  noise_detected : Bool
  errors : Option String
  error : Option String
deriving DecidableEq

structure LambdaResult where
  statusCode : ℕ
  data : RespData
deriving DecidableEq

/-- `lambda_handler`: the whole `try` body (event field access, the S3
download, the ffmpeg run and the parse) is abstracted as an `Except`
input, `.error msg` carrying the description `f"{type(e)}: {str(e)}"`
that the `except Exception` branch stores.  The function is total: every
outcome of the body maps to a `statusCode 200` response. -/
def lambda_handler (body : Except String Bool) : LambdaResult :=
  let resp : RespData := { success := false, noise_detected := false, errors := none, error := none }
  match body with
  | .ok nd => { statusCode := 200, data := { resp with noise_detected := nd, success := true } }
  | .error e => { statusCode := 200, data := { resp with error := some e } }

/-! ### Helper lemmas -/

theorem runLines_append (xs ys : List (List Char)) (st : PState) :
    runLines st (xs ++ ys) =
      match runLines st xs with
      | .ok st2 => runLines st2 ys
      | .error e => .error e := by
  induction xs generalizing st with
  | nil => rfl
  | cons l ls ih =>
    simp only [List.cons_append, runLines]
    cases hp : processLine st l with
    | ok st2 => simp only [hp]; exact ih st2
    | error e => simp only [hp]

/-! ### Claim theorems -/

/-- Claim C2 (code_bug): the claim states that for every input with zero
recognized lines the parse returns one interval `(0.0, 1e7)` and
`resolved = true`.  The code does not: on the empty input (zero lines at
all) the synthesized `chunk_starts = [0.0]` is zipped against the empty
`chunk_ends`, so the result is the empty interval list with
`noise_detected = False` (the chained comparison
`len(chunk_starts) > len(chunk_ends) > 0` fails when `chunk_ends` is
empty, which routes the no-silence case into the `else` branch). -/
theorem C2_empty_input_result :
    splitLines ("").toList = [] ∧ has_audio_parse "" = .ok ([], false) := by
  constructor <;> decide

/-- Claim C3 (code_bug): one total-duration marker (10 seconds) and zero
silence events.  The loop records `end_time = 10.0` (the `Dec` value
`⟨1000, 2⟩`, i.e. `1000/10^2`), yet the final result is the empty
interval list with `noise_detected = False`, not `[(0.0, 10.0)]` with
`resolved = true` as the claim states — same `> 0` guard as in C2. -/
theorem C3_duration_only_result :
    runLines initState (splitLines ("size=1kB time=00:00:10.00 bitrate=").toList)
        = .ok ⟨[], [], some ⟨1000, 2⟩⟩
    ∧ (⟨1000, 2⟩ : Dec).toRat = 10
    ∧ has_audio_parse "size=1kB time=00:00:10.00 bitrate=" = .ok ([], false) := by
  refine ⟨by decide, ?_, by decide⟩
  norm_num [Dec.toRat]

/-- Claim C8 (code_bug): the claim states the temporary local file is
removed after analysis on success and on failure alike.  The generator
has no `try/finally`, so when the `with` body fails (for example
`detect_silence` raising `FFmpegError`), `os.remove` is skipped: the
first conjunct shows the success path removing the file, the second
shows the failure path leaving it behind. -/
theorem C8_tmp_file_leak_on_failure :
    (s3_object (fun fs => (fs, (Except.ok true : Except String Bool))) ⟨false⟩).1.tmpExists
        = false
    ∧ (s3_object (fun fs => (fs, (Except.error "FFmpegError" : Except String Bool))) ⟨false⟩).1.tmpExists
        = true :=
  ⟨rfl, rfl⟩

/-- Claim C10: `lambda_handler` is total over every outcome of its body
and always answers `statusCode 200`; on an internal failure the data
keeps `success = false` and `noise_detected = false`, stores the
exception description under the (new) key `error`, and the
pre-initialised key `errors` stays `None`. -/
theorem C10_handler_total_200 (body : Except String Bool) :
    (lambda_handler body).statusCode = 200 ∧
    ∀ e, body = .error e →
      (lambda_handler body).data =
        { success := false, noise_detected := false, errors := none, error := some e } := by
  cases body with
  | ok nd => exact ⟨rfl, fun e he => Except.noConfusion he⟩
  | error msg =>
    refine ⟨rfl, fun e he => ?_⟩
    cases he
    rfl

/-- Witness for C10 at a concrete failing body. -/
theorem C10_handler_total_200_witness :
    (lambda_handler (Except.error "FFmpegError: FFMPEG Error. Check logs")).statusCode = 200 ∧
    (lambda_handler (Except.error "FFmpegError: FFMPEG Error. Check logs")).data =
      { success := false, noise_detected := false, errors := none,
        error := some "FFmpegError: FFMPEG Error. Check logs" } :=
  ⟨(C10_handler_total_200 _).1, (C10_handler_total_200 _).2 _ rfl⟩

/-- Claim C1 (corrected): when the loop leaves equally many starts and
ends (both positive), no closing time is synthesized — but the chained
comparison `len(chunk_starts) > len(chunk_ends) > 0` is false for equal
lengths, so the `else` branch sets `noise_detected = False`, not `True`
as the claim states. -/
theorem C1_equal_lengths_flag (text : String) (st : PState)
    (hrun : runLines initState (splitLines text.toList) = .ok st)
    (heq : st.chunk_starts.length = st.chunk_ends.length)
    (hpos : 0 < st.chunk_ends.length) :
    has_audio_parse text = .ok (st.chunk_starts.zip st.chunk_ends, false) := by
  have h0 : ¬ st.chunk_starts.length = 0 := by omega
  simp only [has_audio_parse, hrun, Except.map, finishState]
  rw [if_neg h0]
  rw [if_neg (show ¬ (st.chunk_starts.length > st.chunk_ends.length ∧
      st.chunk_ends.length > 0) by omega)]

/-- Counterexample to claim C1 as stated: with only `SilenceStart(3.0)`
the loop ends with one start (`0.0`) and one end (`3.0`) — equal
positive lengths — and the output is `[(0.0, 3.0)]` with the flag
`false`, where the claim predicts `resolved = true`. -/
theorem C1_equal_lengths_flag_cx :
    runLines initState (splitLines (" silence_start: 3").toList)
        = .ok ⟨[⟨0, 0⟩], [⟨3, 0⟩], none⟩
    ∧ has_audio_parse " silence_start: 3" = .ok ([(⟨0, 0⟩, ⟨3, 0⟩)], false) := by
  constructor <;> decide

/-- Witness for C1 at the spec's own example run
(`SilenceEnd(2.0)`, `SilenceStart(5.0)`, duration 10s). -/
theorem C1_equal_lengths_flag_witness :
    has_audio_parse " silence_end: 2 \n silence_start: 5\nsize=1kB time=00:00:10.00 bitrate="
        = .ok ([(⟨2, 0⟩, ⟨5, 0⟩)], false) :=
  (C1_equal_lengths_flag _ ⟨[⟨2, 0⟩], [⟨5, 0⟩], some ⟨1000, 2⟩⟩
    (by decide) (by decide) (by decide)).trans (by decide)

/-- Claim C5 (corrected): with strictly more starts than ends and at
least one end, exactly one closing time is appended and the flag is
`true`.  The appended time is `end_time or 10000000.0`, which by Python
truthiness falls back to the sentinel not only when no duration marker
was seen (`end_time is None`) but also when the last observed duration
is the falsy `0.0` — `orSentinel` is that policy. -/
theorem C5_append_closing_time (text : String) (st : PState)
    (hrun : runLines initState (splitLines text.toList) = .ok st)
    (hgt : st.chunk_ends.length < st.chunk_starts.length)
    (hpos : 0 < st.chunk_ends.length) :
    has_audio_parse text
      = .ok (st.chunk_starts.zip (st.chunk_ends ++ [orSentinel st.end_time]), true) := by
  have h0 : ¬ st.chunk_starts.length = 0 := by omega
  simp only [has_audio_parse, hrun, Except.map, finishState]
  rw [if_neg h0]
  rw [if_pos (show st.chunk_starts.length > st.chunk_ends.length ∧
      st.chunk_ends.length > 0 from ⟨hgt, hpos⟩)]

/-- Counterexample to claim C5 as stated: the total-duration marker IS
observed (with value `0.0`, the `Dec` `⟨0, 2⟩` from `00.00`), yet the
appended closing time is the sentinel `1e7`, not the observed file
duration — `end_time or 10000000.0` treats the falsy `0.0` like `None`. -/
theorem C5_append_closing_time_cx :
    runLines initState
        (splitLines (" silence_start: 1\n silence_end: 2 \nsize=1kB time=00:00:00.00 bitrate=").toList)
        = .ok ⟨[⟨0, 0⟩, ⟨2, 0⟩], [⟨1, 0⟩], some ⟨0, 2⟩⟩
    ∧ (⟨0, 2⟩ : Dec).toRat = 0
    ∧ has_audio_parse " silence_start: 1\n silence_end: 2 \nsize=1kB time=00:00:00.00 bitrate="
        = .ok ([(⟨0, 0⟩, ⟨1, 0⟩), (⟨2, 0⟩, ⟨10000000, 0⟩)], true) := by
  refine ⟨by decide, ?_, by decide⟩
  norm_num [Dec.toRat]

/-- Witness for C5 with a nonzero observed duration (9.5 s): the
observed duration is the appended closing time. -/
theorem C5_append_closing_time_witness :
    has_audio_parse " silence_start: 1\n silence_end: 2 \nsize=1kB time=00:00:09.50 bitrate="
        = .ok ([(⟨0, 0⟩, ⟨1, 0⟩), (⟨2, 0⟩, ⟨950, 2⟩)], true) :=
  (C5_append_closing_time _ ⟨[⟨0, 0⟩, ⟨2, 0⟩], [⟨1, 0⟩], some ⟨950, 2⟩⟩
    (by decide) (by decide) (by decide)).trans (by decide)

/-- Claim C9 (corrected): when the flag comes back `true` the interval
list is non-empty and is the positional zip of `chunk_starts` against
`chunk_ends` with its one appended closing time — but the two sequences
need NOT have equal length at return (`starts` may exceed `ends` by more
than one; the zip silently truncates). -/
theorem C9_resolved_shape (text : String) (st : PState) (ivs : List (Dec × Dec))
    (hrun : runLines initState (splitLines text.toList) = .ok st)
    (hok : has_audio_parse text = .ok (ivs, true)) :
    ivs ≠ [] ∧ ivs = st.chunk_starts.zip (st.chunk_ends ++ [orSentinel st.end_time]) := by
  simp only [has_audio_parse, hrun, Except.map] at hok
  have hfin : finishState st = (ivs, true) := by
    injection hok
  unfold finishState at hfin
  by_cases h0 : st.chunk_starts.length = 0
  · rw [if_pos h0] at hfin
    by_cases h1 : (st.chunk_starts ++ [(⟨0, 0⟩ : Dec)]).length > st.chunk_ends.length ∧
        st.chunk_ends.length > 0
    · exfalso
      have := h1.1
      have := h1.2
      simp only [List.length_append, List.length_cons, List.length_nil, h0] at *
      omega
    · rw [if_neg h1] at hfin
      exact absurd (congrArg Prod.snd hfin) (by simp)
  · rw [if_neg h0] at hfin
    by_cases h1 : st.chunk_starts.length > st.chunk_ends.length ∧ st.chunk_ends.length > 0
    · rw [if_pos h1] at hfin
      have hivs : ivs = st.chunk_starts.zip (st.chunk_ends ++ [orSentinel st.end_time]) :=
        (congrArg Prod.fst hfin).symm
      refine ⟨?_, hivs⟩
      have hlen : 0 < ivs.length := by
        rw [hivs, List.length_zip]
        simp only [List.length_append, List.length_cons, List.length_nil]
        omega
      exact fun hnil => by simp [hnil] at hlen
    · rw [if_neg h1] at hfin
      exact absurd (congrArg Prod.snd hfin) (by simp)

/-- Counterexample to claim C9 as stated: three silence-end events and
one silence-start event leave `chunk_starts` of length 3; the flag comes
back `true` after appending one closing time, yet the final sequences
have lengths 3 and 2 — not equal as the claim asserts. -/
theorem C9_resolved_shape_cx :
    runLines initState
        (splitLines (" silence_end: 1 \n silence_start: 2\n silence_end: 3 \n silence_end: 4 ").toList)
        = .ok ⟨[⟨1, 0⟩, ⟨3, 0⟩, ⟨4, 0⟩], [⟨2, 0⟩], none⟩
    ∧ has_audio_parse " silence_end: 1 \n silence_start: 2\n silence_end: 3 \n silence_end: 4 "
        = .ok ([(⟨1, 0⟩, ⟨2, 0⟩), (⟨3, 0⟩, ⟨10000000, 0⟩)], true)
    ∧ ([⟨1, 0⟩, ⟨3, 0⟩, ⟨4, 0⟩] : List Dec).length
        ≠ (([⟨2, 0⟩] : List Dec) ++ [orSentinel none]).length := by
  refine ⟨by decide, by decide, by decide⟩

/-- Witness for C9 on a resolved run. -/
theorem C9_resolved_shape_witness :
    ([((⟨1, 0⟩ : Dec), (⟨2, 0⟩ : Dec)), (⟨3, 0⟩, ⟨10000000, 0⟩)] : List (Dec × Dec)) ≠ []
    ∧ ([((⟨1, 0⟩ : Dec), (⟨2, 0⟩ : Dec)), (⟨3, 0⟩, ⟨10000000, 0⟩)] : List (Dec × Dec))
        = ([⟨1, 0⟩, ⟨3, 0⟩] : List Dec).zip (([⟨2, 0⟩] : List Dec) ++ [orSentinel none]) :=
  C9_resolved_shape " silence_end: 1 \n silence_start: 2\n silence_end: 3 "
    ⟨[⟨1, 0⟩, ⟨3, 0⟩], [⟨2, 0⟩], none⟩ _ (by decide) (by decide)

/-- Claim C6: a line classified as a total-duration marker sets
`end_time` to `hours*3600 + minutes*60 + seconds`, overwriting whatever
an earlier marker left there — appended as the LAST line of a run it
therefore decides the retained file duration. -/
theorem C6_duration_last_wins (pre : List (List Char)) (st : PState)
    (line hh mm ss : List Char) (sd : Dec)
    (hrun : runLines initState pre = .ok st)
    (hcls : classify line = .durEv hh mm ss)
    (hsd : pyFloat ss = some sd) :
    runLines initState (pre ++ [line]) = .ok { st with end_time := some (durTotal hh mm sd) }
    ∧ (durTotal hh mm sd).toRat
        = (digitsNat hh : ℚ) * 3600 + (digitsNat mm : ℚ) * 60 + sd.toRat := by
  constructor
  · rw [runLines_append, hrun]
    simp only [runLines, processLine, hcls, hsd]
  · have hpow : ((10 : ℚ) ^ sd.exp) ≠ 0 := by positivity
    unfold Dec.toRat durTotal
    push_cast
    field_simp

/-- Witness for C6: two duration markers (1h2m3.5s then 10s); the second
one wins and `end_time` becomes `⟨1000, 2⟩`, i.e. `10.0`. -/
theorem C6_duration_last_wins_witness :
    runLines initState
        [("size=1kB time=01:02:03.50 bitrate=").toList, ("size=1kB time=00:00:10.00 bitrate=").toList]
        = .ok ⟨[], [], some ⟨1000, 2⟩⟩ :=
  ((C6_duration_last_wins [("size=1kB time=01:02:03.50 bitrate=").toList]
    ⟨[], [], some ⟨372350, 2⟩⟩ ("size=1kB time=00:00:10.00 bitrate=").toList
    ("00").toList ("00").toList ("10.00").toList ⟨1000, 2⟩
    (by decide) (by decide) (by decide)).1).trans (by decide)

/-! ### Well-formedness of matched numerals

The groups of `SILENCE_START_RE` / `SILENCE_END_RE` have shape
`[0-9]+(\.?[0-9]*)`, on which `float(...)` always succeeds; only the
`[0-9\.]{5}` seconds field of `TOTAL_DURATION_RE` can defeat `float`. -/

theorem takeWhile_append_all (p : Char → Bool) (a b : List Char)
    (h : ∀ c ∈ a, p c = true) : (a ++ b).takeWhile p = a ++ b.takeWhile p := by
  induction a with
  | nil => rfl
  | cons c a ih =>
    simp only [List.cons_append, List.takeWhile_cons, h c (List.mem_cons_self c a), if_true]
    rw [ih (fun x hx => h x (List.mem_cons_of_mem c hx))]

theorem dropWhile_append_all (p : Char → Bool) (a b : List Char)
    (h : ∀ c ∈ a, p c = true) : (a ++ b).dropWhile p = b.dropWhile p := by
  induction a with
  | nil => rfl
  | cons c a ih =>
    simp only [List.cons_append, List.dropWhile_cons, h c (List.mem_cons_self c a), if_true]
    exact ih (fun x hx => h x (List.mem_cons_of_mem c hx))

theorem mem_of_numMatch {s : List Char} (h : numMatch s = true) :
    ∀ c ∈ s, sdChar c = true := by
  intro c hc
  unfold numMatch at h
  simp only [ne_eq, Bool.and_eq_true, Bool.or_eq_true, decide_eq_true_eq] at h
  obtain ⟨h1, h2⟩ := h
  have hc' : c ∈ s.takeWhile isDig ++ s.dropWhile isDig := by
    rw [List.takeWhile_append_dropWhile]; exact hc
  rcases List.mem_append.mp hc' with htk | hdr
  · simp [sdChar, List.mem_takeWhile_imp htk]
  · rcases h2 with h2 | h2
    · rw [h2] at hdr; cases hdr
    · obtain ⟨hhead, htail⟩ := h2
      cases hr : s.dropWhile isDig with
      | nil => rw [hr] at hdr; cases hdr
      | cons c0 r2 =>
        rw [hr] at hdr hhead htail
        simp only [List.head?_cons, Option.some.injEq] at hhead
        simp only [List.tail_cons] at htail
        rcases List.mem_cons.mp hdr with rfl | hc2
        · rw [hhead]; decide
        · have := List.all_eq_true.mp htail c hc2
          simp [sdChar, this]

theorem pyFloat_isSome_of_numMatch {s : List Char} (h : numMatch s = true) :
    (pyFloat s).isSome = true := by
  have hall := mem_of_numMatch h
  unfold numMatch at h
  simp only [ne_eq, Bool.and_eq_true, Bool.or_eq_true, decide_eq_true_eq] at h
  obtain ⟨h1, h2⟩ := h
  have hg1 : s.any isDig = true := by
    cases hd : s.takeWhile isDig with
    | nil => exact absurd hd h1
    | cons c0 d =>
      have hc0 : c0 ∈ s.takeWhile isDig := by rw [hd]; exact List.mem_cons_self _ _
      exact List.any_eq_true.mpr
        ⟨c0, (List.takeWhile_prefix isDig).subset hc0, List.mem_takeWhile_imp hc0⟩
  have hsplit : s.filter (fun c => c = '.')
      = (s.takeWhile isDig).filter (fun c => c = '.')
        ++ (s.dropWhile isDig).filter (fun c => c = '.') := by
    rw [← List.filter_append, List.takeWhile_append_dropWhile]
  have htk0 : (s.takeWhile isDig).filter (fun c => c = '.') = [] := by
    rw [List.filter_eq_nil_iff]
    intro a ha
    have hd := List.mem_takeWhile_imp ha
    simp only [decide_eq_true_eq]
    intro hdot
    rw [hdot] at hd
    exact absurd hd (by decide)
  have hg2 : ¬ 2 ≤ (s.filter (fun c => c = '.')).length := by
    rw [hsplit, htk0, List.nil_append]
    rcases h2 with h2 | h2
    · rw [h2]; decide
    · obtain ⟨hhead, htail⟩ := h2
      cases hr : s.dropWhile isDig with
      | nil => decide
      | cons c0 r2 =>
        rw [hr] at hhead htail
        simp only [List.head?_cons, Option.some.injEq] at hhead
        simp only [List.tail_cons] at htail
        have hr2 : r2.filter (fun c => c = '.') = [] := by
          rw [List.filter_eq_nil_iff]
          intro a ha
          have hd := List.all_eq_true.mp htail a ha
          simp only [decide_eq_true_eq]
          intro hdot
          rw [hdot] at hd
          exact absurd hd (by decide)
        simp [List.filter_cons, hhead, hr2]
  have hg3 : s.any (fun c => !(sdChar c)) = false := by
    rw [List.any_eq_false]
    intro c hc
    simp [hall c hc]
  unfold pyFloat
  rw [hg1, hg3]
  rw [if_neg (by decide), if_neg hg2, if_neg (by decide)]
  cases hr : s.dropWhile isDig <;> simp

theorem scanSS_numMatch (l n : List Char) (h : scanSS l = some n) : numMatch n = true := by
  induction l with
  | nil => cases h
  | cons c cs ih =>
    simp only [scanSS] at h
    cases hst : stripTok tokSS (c :: cs) with
    | none => simp only [hst] at h; exact ih h
    | some tail =>
      simp only [hst] at h
      by_cases hnm : numMatch tail = true
      · rw [if_pos hnm] at h
        injection h with h'
        rw [← h']; exact hnm
      · rw [if_neg hnm] at h; exact ih h

theorem numMatch_all_digits (a : List Char) (ha : ∀ c ∈ a, isDig c = true) (hne : a ≠ []) :
    numMatch a = true := by
  have htk : a.takeWhile isDig = a := by
    have := takeWhile_append_all isDig a [] ha
    simpa using this
  have hdr : a.dropWhile isDig = [] := by
    have := dropWhile_append_all isDig a [] ha
    simpa using this
  unfold numMatch
  simp [htk, hdr, hne]

theorem numMatch_dotted (a b : List Char) (ha : ∀ c ∈ a, isDig c = true) (hne : a ≠ [])
    (hb : ∀ c ∈ b, isDig c = true) : numMatch (a ++ '.' :: b) = true := by
  have htk : (a ++ '.' :: b).takeWhile isDig = a := by
    rw [takeWhile_append_all isDig a ('.' :: b) ha]
    simp [List.takeWhile_cons, show isDig '.' = false by decide]
  have hdr : (a ++ '.' :: b).dropWhile isDig = '.' :: b := by
    rw [dropWhile_append_all isDig a ('.' :: b) ha]
    simp [List.dropWhile_cons, show isDig '.' = false by decide]
  unfold numMatch
  simp only [htk, hdr]
  simp [hne, List.all_eq_true]
  exact fun x hx => hb x hx

theorem seNum_numMatch (t n : List Char) (h : seNum t = some n) : numMatch n = true := by
  unfold seNum at h
  by_cases hd : t.takeWhile isDig = []
  · rw [if_pos hd] at h; cases h
  · rw [if_neg hd] at h
    have hdig : ∀ c ∈ t.takeWhile isDig, isDig c = true := fun c hc => List.mem_takeWhile_imp hc
    by_cases h1 : (t.dropWhile isDig).head? = some ' '
    · rw [if_pos h1] at h
      injection h with h'
      rw [← h']
      exact numMatch_all_digits _ hdig hd
    · rw [if_neg h1] at h
      by_cases h2 : (t.dropWhile isDig).head? = some '.'
      · rw [if_pos h2] at h
        by_cases h3 : (((t.dropWhile isDig).tail).dropWhile isDig).head? = some ' '
        · rw [if_pos h3] at h
          injection h with h'
          rw [← h']
          exact numMatch_dotted _ _ hdig hd
            (fun c hc => List.mem_takeWhile_imp hc)
        · rw [if_neg h3] at h; cases h
      · rw [if_neg h2] at h; cases h

theorem scanSE_numMatch (l n : List Char) (h : scanSE l = some n) : numMatch n = true := by
  induction l with
  | nil => cases h
  | cons c cs ih =>
    simp only [scanSE] at h
    cases hst : stripTok tokSE (c :: cs) with
    | none => simp only [hst] at h; exact ih h
    | some tail =>
      simp only [hst] at h
      cases hse : seNum tail with
      | none => simp only [hse] at h; exact ih h
      | some m =>
        simp only [hse] at h
        injection h with h'
        rw [← h']
        exact seNum_numMatch tail m hse

theorem classify_startEv (l n : List Char) (h : classify l = .startEv n) :
    scanSS l = some n := by
  unfold classify at h
  cases hss : scanSS l with
  | some m => rw [hss] at h; injection h with h'; rw [h']
  | none =>
    exfalso
    rw [hss] at h
    cases hse : scanSE l with
    | some m => rw [hse] at h; cases h
    | none =>
      rw [hse] at h
      cases hd : scanDur l with
      | some v => obtain ⟨a, b, c⟩ := v; rw [hd] at h; cases h
      | none => rw [hd] at h; cases h

theorem classify_endEv (l n : List Char) (h : classify l = .endEv n) :
    scanSE l = some n := by
  unfold classify at h
  cases hss : scanSS l with
  | some m => rw [hss] at h; cases h
  | none =>
    rw [hss] at h
    cases hse : scanSE l with
    | some m => rw [hse] at h; injection h with h'; rw [h']
    | none =>
      exfalso
      rw [hse] at h
      cases hd : scanDur l with
      | some v => obtain ⟨a, b, c⟩ := v; rw [hd] at h; cases h
      | none => rw [hd] at h; cases h

/-- A line is harmless for the loop when, if it is classified as a
total-duration marker, its 5-character seconds field survives
`float(...)`.  (Silence start/end numerals are well-formed by the shape
of their capture groups.) -/
def lineOk (line : List Char) : Bool :=
  match classify line with
  | .durEv _ _ ss => (pyFloat ss).isSome
  | _ => true

theorem processLine_ok (st : PState) (l : List Char) (hok : lineOk l = true) :
    ∃ st2, processLine st l = .ok st2 := by
  cases hc : classify l with
  | startEv n =>
    have hnm := scanSS_numMatch l n (classify_startEv l n hc)
    obtain ⟨d, hd⟩ := Option.isSome_iff_exists.mp (pyFloat_isSome_of_numMatch hnm)
    by_cases h0 : st.chunk_starts.length = 0
    · exact ⟨_, by simp only [processLine, hc, hd]; rw [if_pos h0]⟩
    · exact ⟨_, by simp only [processLine, hc, hd]; rw [if_neg h0]⟩
  | endEv n =>
    have hnm := scanSE_numMatch l n (classify_endEv l n hc)
    obtain ⟨d, hd⟩ := Option.isSome_iff_exists.mp (pyFloat_isSome_of_numMatch hnm)
    exact ⟨{ st with chunk_starts := st.chunk_starts ++ [d] },
      by simp only [processLine, hc, hd]⟩
  | durEv hh mm ss =>
    have hs : (pyFloat ss).isSome = true := by
      unfold lineOk at hok
      rw [hc] at hok
      exact hok
    obtain ⟨d, hd⟩ := Option.isSome_iff_exists.mp hs
    exact ⟨{ st with end_time := some (durTotal hh mm d) },
      by simp only [processLine, hc, hd]⟩
  | skip => exact ⟨st, by simp only [processLine, hc]⟩

theorem runLines_allOk (ls : List (List Char)) :
    ∀ st, (∀ l ∈ ls, lineOk l = true) → ∃ st2, runLines st ls = .ok st2 := by
  induction ls with
  | nil => exact fun st _ => ⟨st, rfl⟩
  | cons l ls ih =>
    intro st h
    obtain ⟨st1, h1⟩ := processLine_ok st l (h l (List.mem_cons_self l ls))
    obtain ⟨st2, h2⟩ := ih st1 (fun x hx => h x (List.mem_cons_of_mem l hx))
    exact ⟨st2, by rw [runLines, h1]; exact h2⟩

/-- Claim C4 (corrected): the parse returns normally on any input whose
duration-matched lines carry a convertible seconds field — unrecognized
lines (however malformed) are skipped.  But, contrary to the claim, a
line that DOES match `TOTAL_DURATION_RE` with a seconds field that fails
`float(...)` (e.g. `12..4`, which `[0-9\.]{5}` accepts) raises instead of
being skipped: see the counterexample. -/
theorem C4_no_raise_when_seconds_convertible (text : String)
    (h : ∀ l ∈ splitLines text.toList, lineOk l = true) :
    ∃ r, has_audio_parse text = .ok r := by
  obtain ⟨st, hst⟩ := runLines_allOk (splitLines text.toList) initState h
  exact ⟨finishState st, by simp only [has_audio_parse, hst, Except.map]⟩

/-- Counterexample to claim C4 as stated: the line
`size=x time=00:00:12..4 bitrate=` matches the duration pattern (seconds
field `12..4`), `float("12..4")` raises `ValueError`, and the parse
propagates the error instead of skipping the line. -/
theorem C4_no_raise_when_seconds_convertible_cx :
    classify (("size=x time=00:00:12..4 bitrate=").toList)
        = .durEv (("00").toList) (("00").toList) (("12..4").toList)
    ∧ pyFloat (("12..4").toList) = none
    ∧ has_audio_parse "size=x time=00:00:12..4 bitrate=" = .error () := by
  refine ⟨by decide, by decide, by decide⟩

/-- Witness for C4 on a well-formed two-line input. -/
theorem C4_no_raise_when_seconds_convertible_witness :
    (∀ l ∈ splitLines (" silence_start: 3\nnoise").toList, lineOk l = true)
    ∧ ∃ r, has_audio_parse " silence_start: 3\nnoise" = .ok r :=
  ⟨by decide, C4_no_raise_when_seconds_convertible _ (by decide)⟩

/-! ### Where `SILENCE_START_RE` can match

The pattern begins with a literal space: `" silence_start: "`.  A line
therefore matches only when the `silence_start:` token is preceded by a
space; and when it matches, the captured group is the numeral suffix. -/

theorem stripTok_self (t s : List Char) : stripTok t (t ++ s) = some s := by
  induction t with
  | nil => rfl
  | cons c ts ih => simp [stripTok, ih]

theorem stripTok_some (t : List Char) :
    ∀ s r : List Char, stripTok t s = some r → s = t ++ r := by
  induction t with
  | nil =>
    intro s r h
    exact Option.some.inj h
  | cons c ts ih =>
    intro s r h
    cases s with
    | nil => cases h
    | cons c0 s0 =>
      unfold stripTok at h
      by_cases hcc : c0 = c
      · rw [if_pos hcc] at h
        rw [hcc, ih s0 r h]
        rfl
      · rw [if_neg hcc] at h; cases h

/-- The start token minus its trailing space. -/
def tokSS0 : List Char := (" silence_start:").toList

theorem tokSS_eq : tokSS = tokSS0 ++ [' '] := by decide

theorem tokSS_len : tokSS.length = 16 := by decide

theorem tokSS0_len : tokSS0.length = 15 := by decide

theorem scanSS_tok (num : List Char) (hn : numMatch num = true) :
    scanSS (tokSS ++ num) = some num := by
  have hcons : tokSS ++ num = ' ' :: (("silence_start: ").toList ++ num) := by
    rw [show tokSS = ' ' :: ("silence_start: ").toList by decide]
    rfl
  rw [hcons]
  simp only [scanSS]
  rw [← hcons]
  simp only [stripTok_self, hn, if_true]

theorem scanSS_append (pre num : List Char) (hn : numMatch num = true) :
    scanSS (pre ++ (tokSS ++ num)) = some num := by
  induction pre with
  | nil => simpa using scanSS_tok num hn
  | cons c pre ih =>
    rw [List.cons_append]
    simp only [scanSS]
    cases hst : stripTok tokSS (c :: (pre ++ (tokSS ++ num))) with
    | none => simp only [hst]; exact ih
    | some tail =>
      simp only [hst]
      have hw : c :: (pre ++ (tokSS ++ num)) = tokSS ++ tail :=
        stripTok_some tokSS _ tail hst
      have h2 : c :: (pre ++ (tokSS ++ num)) = (c :: (pre ++ tokSS0)) ++ (' ' :: num) := by
        rw [tokSS_eq]
        simp [List.append_assoc]
      have htail : tail = (c :: (pre ++ (tokSS ++ num))).drop 16 := by
        rw [hw, ← tokSS_len, List.drop_left]
      have hsp : ' ' :: num = (c :: (pre ++ (tokSS ++ num))).drop (16 + pre.length) := by
        rw [h2]
        rw [show 16 + pre.length = (c :: (pre ++ tokSS0)).length by
          simp [tokSS0_len]; omega]
        rw [List.drop_left]
      have hdt : tail.drop pre.length = ' ' :: num := by
        rw [htail, List.drop_drop, ← hsp]
      have hmem : ' ' ∈ tail := by
        refine List.drop_subset pre.length tail ?_
        rw [hdt]
        exact List.mem_cons_self ' ' num
      have hfalse : numMatch tail = false := by
        cases hnm : numMatch tail
        · rfl
        · exact absurd (mem_of_numMatch hnm ' ' hmem) (by decide)
      simp only [hfalse, Bool.false_eq_true, if_false]
      exact ih

/-- Claim C7 (corrected): a line of the form
`<anything> ++ " silence_start: " ++ <numeral>` — the token must be
PRECEDED BY A SPACE, which the claim omits — is classified as a
silence-start event whose numeral is appended to `chunk_ends` (with the
time-0 fallback pushed onto `chunk_starts` when it is empty). -/
theorem C7_start_line_event (pre num : List Char) (hn : numMatch num = true)
    (sd : Dec) (hsd : pyFloat num = some sd) (st : PState) :
    classify (pre ++ (tokSS ++ num)) = .startEv num ∧
    processLine st (pre ++ (tokSS ++ num)) =
      .ok ⟨if st.chunk_starts.length = 0 then st.chunk_starts ++ [⟨0, 0⟩] else st.chunk_starts,
          st.chunk_ends ++ [sd], st.end_time⟩ := by
  have hcls : classify (pre ++ (tokSS ++ num)) = .startEv num := by
    unfold classify
    rw [scanSS_append pre num hn]
  refine ⟨hcls, ?_⟩
  by_cases h0 : st.chunk_starts.length = 0
  · simp only [processLine, hcls, hsd]
    rw [if_pos h0, if_pos h0]
  · simp only [processLine, hcls, hsd]
    rw [if_neg h0, if_neg h0]

/-- Counterexample to claim C7 as stated: the line `silence_start: 3`
ends in `silence_start: <number>` but has nothing (in particular no
space) before the token, so `SILENCE_START_RE` does not match: the line
is unrecognized and no event is recorded. -/
theorem C7_start_line_event_cx :
    classify (("silence_start: 3").toList) = .skip
    ∧ has_audio_parse "silence_start: 3" = .ok ([], false) := by
  constructor <;> decide

/-- Witness for C7: an arbitrary prefix `abc` before the spaced token. -/
theorem C7_start_line_event_witness :
    classify (("abc silence_start: 3.5").toList) = .startEv (("3.5").toList)
    ∧ processLine initState (("abc silence_start: 3.5").toList)
        = .ok ⟨[⟨0, 0⟩], [⟨35, 1⟩], none⟩ := by
  have h := C7_start_line_event (("abc").toList) (("3.5").toList) (by decide)
    ⟨35, 1⟩ (by decide) initState
  exact ⟨h.1, h.2.trans (by decide)⟩
